import Mathlib

/-- A cell value: `none` models null/NaN. -/
abbrev Cell := Option String

/-- A raw sheet grid: rows of cells, no header interpretation. -/
abbrev Grid := List (List Cell)

/-- A parsed frame in column-major form: (label, column values) in order. -/
abbrev Frame := List (String × List Cell)

/-- A Python dict from strings to strings, as an association list with unique
keys (maintained by `dictInsert`). -/
abbrev Dict := List (String × String)

/-- Characters removed by the `_WS_RE` regex of the source
(`[\s　\r\n]+`): ASCII whitespace, the full-width space, CR and LF.
(Python `\s` also matches some rarer Unicode whitespace; those characters do
not occur in any input considered here.) -/
def isWSChar (c : Char) : Bool :=
  c == ' ' || c == '\t' || c == '\n' || c == '\r' || c == '\x0b' ||
    c == '\x0c' || c == '　'

/-- `clean(s)` from the source: `_WS_RE.sub("", str(s).strip())`.  Removing
every whitespace character subsumes the outer `strip`. -/
def clean (s : String) : String :=
  String.mk (s.data.filter (fun c => !(isWSChar c)))

/-- Association-list lookup with string keys (Python `d[k]` / `k in d`). -/
def dlookup {α : Type} (k : String) : List (String × α) → Option α
  | [] => none
  | (a, b) :: es => if k = a then some b else dlookup k es

/-- Python `d[k] = v`: overwrite the value in place when the key exists
(keys are unique, so replacing the first binding suffices), else append the
new binding at the end. -/
def dictInsert : Dict → String → String → Dict
  | [], k, v => [(k, v)]
  | (a, b) :: d, k, v =>
    if a = k then (k, v) :: d else (a, b) :: dictInsert d k v

/-- `str(cell)` after `.fillna("")`: a null cell reads as the empty string. -/
def cellStr : Cell → String
  | some s => s
  | none => ""

/-- The number of columns pandas reports for a raw grid (`df.shape[1]`):
the maximum row width. -/
def ncolsOf (g : Grid) : Nat :=
  g.foldr (fun r m => max r.length m) 0

/-- A workbook as seen through `read_excel_auto`: either readable (its sheets
in workbook order) or raising a format error (`ValueError` for an unsupported
extension / `RuntimeError` for a legacy binary `.et` without conversion). -/
inductive Workbook where
  | ok (sheets : List (String × Grid))
  | badFormat (msg : String)

/-- Fatal errors of a merge run, mirroring the exceptions the source raises:
`configError` = `ValueError` from `_load_mapping`, `formatError` = the
errors of `read_excel_auto`, `noMatch` = the `RuntimeError` raised when no
frame was accepted. -/
inductive MergeError where
  | configError (msg : String)
  | formatError (msg : String)
  | noMatch
deriving DecidableEq

/-- The result of `_load_mapping`: template column order and the two lookup
dicts (`tpl_cols`, `fwd`, `rev`). -/
structure MappingAcc where
  tplCols : List String
  fwd : Dict
  rev : Dict
deriving DecidableEq

/-- One iteration of the row loop of `_load_mapping`: clean both cells, skip
the row if either is empty, else extend schema (first-seen only) and both
dicts (`fwd[s] = t`, `rev[t] = s`). -/
def loadStep (acc : MappingAcc) (p : String × String) : MappingAcc :=
  let t := clean p.1
  let s := clean p.2
  if t = "" ∨ s = "" then acc
  else
    { tplCols := if t ∈ acc.tplCols then acc.tplCols else acc.tplCols ++ [t]
      fwd := dictInsert acc.fwd s t
      rev := dictInsert acc.rev t s }

/-- The row loop of `_load_mapping` over the (template, source) cell pairs of
the mapping data rows. -/
def loadMappingRows (rows : List (String × String)) : MappingAcc :=
  rows.foldl loadStep ⟨[], [], []⟩

/-- `_load_mapping` on the first sheet's grid.  pandas is called with
`header=0`, so row 0 of the grid is consumed as the column labels and the
data rows are rows 1 onward; the first two columns are taken by position
(`df.columns[:2]`); `.fillna("")` turns null cells into empty strings. -/
def loadMappingGrid (g : Grid) : Except MergeError MappingAcc :=
  if ncolsOf g < 2 then .error (.configError "mapping file needs two columns")
  else
    let acc := loadMappingRows
      ((g.drop 1).map (fun r => (cellStr (r.getD 0 none), cellStr (r.getD 1 none))))
    if acc.fwd.isEmpty then .error (.configError "no valid mapping pairs")
    else .ok acc

/-- `_load_mapping` at the workbook level: `read_excel_auto(path, sheet_name=0)`
reads the first sheet (a real workbook always has one; an empty workbook
cannot be produced by the supported formats). -/
def loadMapping : Workbook → Except MergeError MappingAcc
  | .badFormat msg => .error (.formatError msg)
  | .ok [] => .error (.formatError "workbook has no sheet")
  | .ok (s :: _) => loadMappingGrid s.2

/-- Does a cell hit the candidate key set?  (`pd.notna(c)` and the cleaned
text is a member — exact membership, no substring matching.) -/
def cellHit (keys : List String) : Cell → Bool
  | some s => decide (clean s ∈ keys)
  | none => false

/-- Does a row contain at least one hit? -/
def rowHasKey (keys : List String) (row : List Cell) : Bool :=
  row.any (cellHit keys)

/-- Index of the first element satisfying `p`, if any. -/
def findFirstIdx {α : Type} (p : α → Bool) : List α → Option Nat
  | [] => none
  | a :: l => if p a then some 0 else (findFirstIdx p l).map (· + 1)

/-- `_probe_header_row`: first row (positional index) with a cell whose
cleaned text is in the key set, else the sentinel `-1`. -/
def probeHeaderRow (g : Grid) (keys : List String) : Int :=
  match findFirstIdx (rowHasKey keys) g with
  | some i => Int.ofNat i
  | none => -1

/-- The probe as invoked by `_process_workbook`:
`_probe_header_row(probe_df.head(self.probe_rows), keys)` — only the first
`maxRows` rows are scanned. -/
def probeSheet (g : Grid) (keys : List String) (maxRows : Nat) : Int :=
  probeHeaderRow (g.take maxRows) keys

/-- `c == k or k in c or c in k` — fuzzy match between a cleaned column name
and a mapping key. -/
def substrB (needle hay : String) : Bool :=
  (List.range (hay.data.length + 1)).any
    (fun i => ((hay.data.drop i).take needle.data.length) == needle.data)

/-- Fuzzy comparison of a cleaned column name `c` against a key `k`. -/
def fuzzyMatch (c k : String) : Bool :=
  c == k || substrB k c || substrB c k

/-- One direction of `_fuzzy_rename`'s loop: for each column name, the first
key of `pool` that fuzzy-matches the cleaned name stages a rename to the
dict's value for that key and counts one hit.  (`pool` is `set(d)`; the
source's single loop updates the two directions independently, so it is
modelled as two calls.) -/
def buildRename (pool : List String) (d : Dict) (names : List String) :
    Dict × Nat :=
  names.foldl
    (fun acc col =>
      match pool.find? (fun k => fuzzyMatch (clean col) k) with
      | some k => (dictInsert acc.1 col ((dlookup k d).getD ""), acc.2 + 1)
      | none => acc)
    ([], 0)

/-- `df.rename(columns=ren)`: relabel columns present in `ren`, keep the
rest. -/
def applyRenameF (ren : Dict) (frame : Frame) : Frame :=
  frame.map (fun p => ((dlookup p.1 ren).getD p.1, p.2))

/-- `_fuzzy_rename`: try both directions, prefer the forward one on ties
(`if hit_fwd >= hit_rev and hit_fwd`), else the reverse one if it hit, else
return the frame unchanged with hit count 0. -/
def fuzzyRenameF (fwd rev : Dict) (frame : Frame) : Frame × Nat :=
  let names := frame.map Prod.fst
  let bF := buildRename (fwd.map Prod.fst) fwd names
  let bR := buildRename (rev.map Prod.fst) rev names
  if bR.2 ≤ bF.2 ∧ bF.2 ≠ 0 then (applyRenameF bF.1 frame, bF.2)
  else if bR.2 ≠ 0 then (applyRenameF bR.1 frame, bR.2)
  else (frame, 0)

/-- Re-reading a sheet with `header=hdr` (external pandas): column labels are
row `hdr`'s cells (an absent label is filled positionally), data rows are the
rows below `hdr`. -/
def applyHeader (g : Grid) (hdr : Nat) : Frame :=
  let headerRow := g.getD hdr []
  let dataRows := g.drop (hdr + 1)
  (List.range (ncolsOf g)).map
    (fun j =>
      (match headerRow.getD j none with
       | some s => s
       | none => "Unnamed: " ++ toString j,
       dataRows.map (fun r => r.getD j none)))

/-- `df.columns = [clean(c) for c in df.columns]`. -/
def cleanCols (frame : Frame) : Frame :=
  frame.map (fun p => (clean p.1, p.2))

/-- Column-label deduplication of `_process_workbook`:
`np.unique(df.columns, return_index=True)` collects the first position of
each distinct label and `df.iloc[:, sorted(first_idx)]` keeps exactly those
positions in ascending order — i.e. keep each label's first occurrence,
preserving relative order. -/
def dedupAux (seen : List String) : Frame → Frame
  | [] => []
  | (n, v) :: rest =>
    if n ∈ seen then dedupAux seen rest
    else (n, v) :: dedupAux (n :: seen) rest

/-- Deduplicate columns, keeping first occurrences. -/
def dedupCols (frame : Frame) : Frame := dedupAux [] frame

/-- The padding loop: `for col in tpl_cols: if col not in df.columns:
df[col] = pd.NA` — append a null column of the frame's row count. -/
def padMissing (nrows : Nat) (tplCols : List String) (frame : Frame) : Frame :=
  tplCols.foldl
    (fun acc c =>
      if c ∈ acc.map Prod.fst then acc
      else acc ++ [(c, List.replicate nrows (none : Cell))])
    frame

/-- `df[tpl_cols]`: select the template columns by label, in template order. -/
def selectCols (tplCols : List String) (frame : Frame) : Frame :=
  tplCols.filterMap (fun c => (dlookup c frame).map (fun v => (c, v)))

/-- Pad missing template columns with nulls, then reorder/select to the
template schema. -/
def alignTo (tplCols : List String) (nrows : Nat) (frame : Frame) : Frame :=
  selectCols tplCols (padMissing nrows tplCols frame)

/-- The probe keys of `_process_workbook`: `set(fwd) | set(rev)` (used for
membership only). -/
def sheetHeaderIdx (probeRows : Nat) (fwd rev : Dict) (g : Grid) : Int :=
  probeSheet g (fwd.map Prod.fst ++ rev.map Prod.fst) probeRows

/-- Re-read with the located header, clean the labels, fuzzy-rename. -/
def sheetRenamed (fwd rev : Dict) (g : Grid) (hdr : Nat) : Frame × Nat :=
  fuzzyRenameF fwd rev (cleanCols (applyHeader g hdr))

/-- Per-sheet processing of `_process_workbook`: probe (skip on `-1`),
re-read with the header, clean, fuzzy-rename (skip on zero hits),
deduplicate, pad and align.  The frame's row count is the number of rows
below the header. -/
def processSheet (probeRows : Nat) (tplCols : List String) (fwd rev : Dict)
    (g : Grid) : Option Frame :=
  let hdrI := sheetHeaderIdx probeRows fwd rev g
  if hdrI = -1 then none
  else
    let res := sheetRenamed fwd rev g hdrI.toNat
    if res.2 = 0 then none
    else some (alignTo tplCols (g.length - (hdrI.toNat + 1)) (dedupCols res.1))

/-- `_process_workbook`: read all sheets (a format error propagates), process
each sheet, keep the accepted frames in sheet order. -/
def processWorkbook (probeRows : Nat) (tplCols : List String) (fwd rev : Dict) :
    Workbook → Except MergeError (List Frame)
  | .badFormat msg => .error (.formatError msg)
  | .ok sheets =>
    .ok (sheets.filterMap (fun s => processSheet probeRows tplCols fwd rev s.2))

/-- The source loop of `merge`: `frames.extend(self._process_workbook(...))`
for each source path in order; any exception propagates and aborts. -/
def processAll (fs : String → Workbook) (probeRows : Nat)
    (tplCols : List String) (fwd rev : Dict) :
    List String → Except MergeError (List Frame)
  | [] => .ok []
  | p :: rest =>
    match processWorkbook probeRows tplCols fwd rev (fs p) with
    | .error e => .error e
    | .ok fr =>
      match processAll fs probeRows tplCols fwd rev rest with
      | .error e => .error e
      | .ok more => .ok (fr ++ more)

/-- `ExcelTemplateMerger.merge`: load the mapping, process every source, fail
with the no-match error if no frame was accepted, else write
`<template-stem>_filled.xlsx`.  The filesystem is `fs`; the returned pair is
the written artifact (output path, accepted frames in order — their row-wise
concatenation is the output table).  The template path is used only to name
the output. -/
def mergeRun (fs : String → Workbook) (tplPath mapPath : String)
    (srcPaths : List String) (probeRows : Nat) :
    Except MergeError (String × List Frame) :=
  match loadMapping (fs mapPath) with
  | .error e => .error e
  | .ok acc =>
    match processAll fs probeRows acc.tplCols acc.fwd acc.rev srcPaths with
    | .error e => .error e
    | .ok frames =>
      if frames.isEmpty then .error .noMatch
      else .ok (tplPath ++ "_filled.xlsx", frames)

/-- The contribution of a mapping row to the forward lookup of source text
`s`: its cleaned template cell, when the row is valid and its cleaned source
cell equals `s`. -/
def tplEntry (s : String) (p : String × String) : Option String :=
  if clean p.1 ≠ "" ∧ clean p.2 ≠ "" ∧ clean p.2 = s then some (clean p.1)
  else none

/-- The contribution of a mapping row to the reverse lookup of template text
`t`: its cleaned source cell, when the row is valid and its cleaned template
cell equals `t`. -/
def srcEntry (t : String) (p : String × String) : Option String :=
  if clean p.1 ≠ "" ∧ clean p.2 ≠ "" ∧ clean p.1 = t then some (clean p.2)
  else none

/-- The contribution of a mapping row to the schema: its cleaned template
cell, when the row is valid. -/
def tplOfValid (p : String × String) : Option String :=
  if clean p.1 ≠ "" ∧ clean p.2 ≠ "" then some (clean p.1) else none

/-- The template header recorded by the last valid mapping row whose cleaned
source cell equals `s` (specification-side description of last-write-wins). -/
def lastTplFor (rows : List (String × String)) (s : String) : Option String :=
  (rows.filterMap (tplEntry s)).getLast?

/-- The source header recorded by the last valid mapping row whose cleaned
template cell equals `t`. -/
def lastSrcFor (rows : List (String × String)) (t : String) : Option String :=
  (rows.filterMap (srcEntry t)).getLast?

/-- Cleaned template headers of the valid mapping rows, in row order. -/
def validTpls (rows : List (String × String)) : List String :=
  rows.filterMap tplOfValid

/-- Keep the first occurrence of each element, preserving order. -/
def firstSeen (l : List String) : List String :=
  l.foldl (fun acc t => if t ∈ acc then acc else acc ++ [t]) []

/-- First-occurrence filtering on plain name lists (specification side). -/
def dedupNamesAux (seen : List String) : List String → List String
  | [] => []
  | n :: rest =>
    if n ∈ seen then dedupNamesAux seen rest
    else n :: dedupNamesAux (n :: seen) rest

/-- A filesystem whose mapping file is valid but whose only source sheet has
no locatable header. -/
def fsNoMatch : String → Workbook := fun p =>
  if p = "m" then
    Workbook.ok [("map", [[some "A", some "B"], [some "T", some "S"]])]
  else Workbook.ok [("sh", [[some "X"]])]

/-- A filesystem with a valid mapping at "m", a matching source at "src",
and — at every other path, in particular the template path "t" — a workbook
without any locatable header. -/
def fsTemplateIgnored : String → Workbook := fun p =>
  if p = "m" then
    Workbook.ok [("map", [[some "A", some "B"], [some "T", some "S"]])]
  else if p = "src" then Workbook.ok [("data", [[some "S"], [some "1"]])]
  else Workbook.ok [("tpl", [[some "X"], [some "Y"]])]

/-- Identical to `fsTemplateIgnored` except at the template path, where the
workbook is empty. -/
def fsTemplateBlank : String → Workbook := fun p =>
  if p = "m" then
    Workbook.ok [("map", [[some "A", some "B"], [some "T", some "S"]])]
  else if p = "src" then Workbook.ok [("data", [[some "S"], [some "1"]])]
  else Workbook.ok []

/-- A filesystem with a valid mapping, an unsupported workbook at "bad", and
a matching source at every other path. -/
def fsBadSource : String → Workbook := fun p =>
  if p = "m" then
    Workbook.ok [("map", [[some "A", some "B"], [some "T", some "S"]])]
  else if p = "bad" then Workbook.badFormat "unsupported file type"
  else Workbook.ok [("data", [[some "S"], [some "1"]])]

/-!
Verification of `excel_template_merger.py` (Structor repository).

We shallowly embed the core of the merger: text normalization (`clean`),
mapping-file loading (`_load_mapping`), header probing (`_probe_header_row`),
fuzzy column renaming (`_fuzzy_rename`), per-sheet processing
(`_process_workbook`) and the merge orchestration (`merge`).

Modelling conventions:
- A spreadsheet cell is `Option String` (`none` = null/NaN); a raw grid is a
  list of rows; a parsed frame is a list of (column-name, column-values) pairs
  in column order.
- `pandas`/`openpyxl` reading is the external collaborator: a workbook either
  yields its sheets (name, raw grid) or fails with a format error, as
  `read_excel_auto` either returns or raises (`ValueError` for an unsupported
  extension, `RuntimeError` for a legacy `.et` without a conversion path).
- Python dicts are association lists with unique keys; insertion of an
  existing key overwrites the value in place, mirroring `d[k] = v`.
- Python `set` iteration order is unspecified; where the source iterates
  `set(fwd)`, the model iterates the dict keys in insertion order.  No
  theorem below depends on a particular`pool` order beyond existence of a
  match.
- Machine-level details of pandas that no claim depends on (label mangling of
  duplicate header cells, dtype inference) are not modelled; the header-row
  application keeps cell text as-is and fills absent labels positionally.
-/

/-! ### Helper lemmas: association lists -/

theorem dlookup_dictInsert (d : Dict) (k v k' : String) :
    dlookup k' (dictInsert d k v) = if k' = k then some v else dlookup k' d := by
  induction d with
  | nil =>
    by_cases h : k' = k <;> simp [dictInsert, dlookup, h]
  | cons p d ih =>
    obtain ⟨a, b⟩ := p
    by_cases hak : a = k
    · subst hak
      by_cases h : k' = a <;> simp [dictInsert, dlookup, h]
    · by_cases h1 : k' = a
      · subst h1
        have hkk : k' ≠ k := hak
        simp [dictInsert, dlookup, hak, hkk]
      · simp [dictInsert, dlookup, hak, h1, ih]

theorem dlookup_append {α : Type} (k : String) (l1 l2 : List (String × α)) :
    dlookup k (l1 ++ l2) =
      match dlookup k l1 with
      | some v => some v
      | none => dlookup k l2 := by
  induction l1 with
  | nil => simp [dlookup]
  | cons p l1 ih =>
    obtain ⟨a, b⟩ := p
    by_cases h : k = a <;> simp [dlookup, h, ih]

theorem dlookup_eq_none_iff {α : Type} (k : String) (l : List (String × α)) :
    dlookup k l = none ↔ k ∉ l.map Prod.fst := by
  induction l with
  | nil => simp [dlookup]
  | cons p l ih =>
    obtain ⟨a, b⟩ := p
    by_cases h : k = a <;> simp [dlookup, h, ih]

theorem dlookup_isSome_iff {α : Type} (k : String) (l : List (String × α)) :
    (dlookup k l).isSome = true ↔ k ∈ l.map Prod.fst := by
  constructor
  · intro hs
    by_contra hmem
    rw [(dlookup_eq_none_iff k l).mpr hmem] at hs
    simp at hs
  · intro hmem
    cases h : dlookup k l with
    | some v => simp
    | none => exact absurd hmem ((dlookup_eq_none_iff k l).mp h)

/-! ### Helper lemmas: first-index search -/

theorem findFirstIdx_eq_none_iff {α : Type} (p : α → Bool) (l : List α) (d : α) :
    findFirstIdx p l = none ↔ ∀ i, i < l.length → p (l.getD i d) = false := by
  induction l with
  | nil => simp [findFirstIdx]
  | cons a l ih =>
    simp only [findFirstIdx]
    by_cases hpa : p a
    · rw [if_pos hpa]
      constructor
      · intro h; exact absurd h (by simp)
      · intro h
        have h0 := h 0 (by simp)
        simp [hpa] at h0
    · rw [if_neg hpa, Option.map_eq_none']
      rw [ih]
      constructor
      · intro h i hi
        cases i with
        | zero =>
          simpa using (Bool.not_eq_true (p a)).mp hpa
        | succ n =>
          simpa using h n (by simpa using hi)
      · intro h i hi
        have := h (i + 1) (by simpa using hi)
        simpa using this

theorem findFirstIdx_eq_some {α : Type} (p : α → Bool) (l : List α) (d : α) :
    ∀ i, findFirstIdx p l = some i →
      i < l.length ∧ p (l.getD i d) = true ∧
        ∀ j, j < i → p (l.getD j d) = false := by
  induction l with
  | nil => intro i h; simp [findFirstIdx] at h
  | cons a l ih =>
    intro i h
    simp only [findFirstIdx] at h
    by_cases hpa : p a
    · rw [if_pos hpa] at h
      have h0 : (0 : Nat) = i := by injection h
      subst h0
      exact ⟨by simp, by simpa using hpa, fun j hj => absurd hj (by omega)⟩
    · rw [if_neg hpa, Option.map_eq_some'] at h
      obtain ⟨n, hn, rfl⟩ := h
      obtain ⟨h1, h2, h3⟩ := ih n hn
      refine ⟨by simpa using h1, by simpa using h2, ?_⟩
      intro j hj
      cases j with
      | zero => simpa using (Bool.not_eq_true (p a)).mp hpa
      | succ m => simpa using h3 m (by omega)

theorem getD_take {α : Type} (l : List α) (d : α) :
    ∀ m i, i < m → (l.take m).getD i d = l.getD i d := by
  induction l with
  | nil => intro m i _; simp
  | cons a l ih =>
    intro m i h
    cases m with
    | zero => omega
    | succ m =>
      cases i with
      | zero => simp
      | succ n =>
        simp only [List.take_succ_cons, List.getD_cons_succ]
        exact ih m n (by omega)

/-! ### C5: header probe -/

/-- C5: over the probe window `probe_df.head(probe_rows)`, the header probe
returns the index of the first row among rows `0..min(maxProbeRows, rowCount)-1`
that contains at least one non-null cell whose cleaned text is exactly a
member of the candidate key set, and returns the `-1` sentinel when no row of
the window qualifies — the result depends only on rows inside the window, so
a matching row beyond the probe limit is not seen. -/
theorem c5_probe_spec (g : Grid) (keys : List String) (maxRows : Nat) :
    (probeSheet g keys maxRows = -1 ↔
      ∀ i, i < min maxRows g.length → rowHasKey keys (g.getD i []) = false) ∧
    (∀ i : Nat, probeSheet g keys maxRows = Int.ofNat i →
      i < min maxRows g.length ∧ rowHasKey keys (g.getD i []) = true ∧
        ∀ j, j < i → rowHasKey keys (g.getD j []) = false) := by
  have hlen : (g.take maxRows).length = min maxRows g.length :=
    List.length_take _ _
  have hwin : ∀ i, i < min maxRows g.length →
      (g.take maxRows).getD i [] = g.getD i [] := by
    intro i hi
    exact getD_take g [] maxRows i (lt_of_lt_of_le hi (min_le_left _ _))
  constructor
  · constructor
    · intro h i hi
      have hf : findFirstIdx (rowHasKey keys) (g.take maxRows) = none := by
        by_contra hne
        obtain ⟨n, hn⟩ := Option.ne_none_iff_exists'.mp hne
        unfold probeSheet probeHeaderRow at h
        rw [hn] at h
        simp at h
      have hall := (findFirstIdx_eq_none_iff (rowHasKey keys)
        (g.take maxRows) []).mp hf
      have h2 := hall i (by rw [hlen]; exact hi)
      rwa [hwin i hi] at h2
    · intro h
      have hf : findFirstIdx (rowHasKey keys) (g.take maxRows) = none := by
        rw [findFirstIdx_eq_none_iff _ _ []]
        intro i hi
        rw [hlen] at hi
        rw [hwin i hi]
        exact h i hi
      unfold probeSheet probeHeaderRow
      rw [hf]
  · intro i h
    unfold probeSheet probeHeaderRow at h
    cases hf : findFirstIdx (rowHasKey keys) (g.take maxRows) with
    | none =>
      rw [hf] at h
      simp at h
    | some n =>
      rw [hf] at h
      simp only [Int.ofNat_eq_coe] at h
      have hni : n = i := by exact_mod_cast h
      subst hni
      obtain ⟨h1, h2, h3⟩ :=
        findFirstIdx_eq_some (rowHasKey keys) (g.take maxRows) [] n hf
      rw [hlen] at h1
      refine ⟨h1, ?_, ?_⟩
      · rw [← hwin n h1]; exact h2
      · intro j hj
        have hjlt : j < min maxRows g.length := lt_trans hj h1
        rw [← hwin j hjlt]
        exact h3 j hj

/-- Witness for C5 at a concrete input: the second row of the grid carries a
key cell, but with a probe limit of 1 row the probe still answers `-1`. -/
theorem c5_probe_spec_w :
    probeSheet [[some "x"], [some "S"]] ["S"] 1 = -1 ∧
      rowHasKey ["S"] [some "S"] = true :=
  ⟨(c5_probe_spec [[some "x"], [some "S"]] ["S"] 1).1.mpr (by decide),
    by decide⟩

/-! ### C10: mapping-load characterization -/

theorem getLast?_cons_or {α : Type} (a : α) (l : List α) :
    (a :: l).getLast? = (l.getLast?).or (some a) := by
  induction l generalizing a with
  | nil => simp
  | cons b m ih =>
    rw [List.getLast?_cons_cons, ih b]
    cases hm : m.getLast? <;> simp [ih b, hm]

theorem fwd_fold (rows : List (String × String)) :
    ∀ acc s, dlookup s (rows.foldl loadStep acc).fwd =
      (lastTplFor rows s).or (dlookup s acc.fwd) := by
  induction rows with
  | nil => intro acc s; simp [lastTplFor]
  | cons r rest ih =>
    intro acc s
    simp only [List.foldl_cons]
    rw [ih]
    by_cases h1 : clean r.1 = ""
    · have hstep : loadStep acc r = acc := by simp [loadStep, h1]
      have hfr : tplEntry s r = none := by
        unfold tplEntry
        rw [if_neg (by simp [h1])]
      have hlast : lastTplFor (r :: rest) s = lastTplFor rest s := by
        unfold lastTplFor
        rw [List.filterMap_cons, hfr]
      rw [hstep, hlast]
    · by_cases h2 : clean r.2 = ""
      · have hstep : loadStep acc r = acc := by simp [loadStep, h2]
        have hfr : tplEntry s r = none := by
          unfold tplEntry
          rw [if_neg (by simp [h2])]
        have hlast : lastTplFor (r :: rest) s = lastTplFor rest s := by
          unfold lastTplFor
          rw [List.filterMap_cons, hfr]
        rw [hstep, hlast]
      · have hstep : (loadStep acc r).fwd =
            dictInsert acc.fwd (clean r.2) (clean r.1) := by
          simp [loadStep, h1, h2]
        rw [hstep, dlookup_dictInsert]
        by_cases h3 : clean r.2 = s
        · have hfr : tplEntry s r = some (clean r.1) := by
            unfold tplEntry
            rw [if_pos ⟨h1, h2, h3⟩]
          have hfm : (r :: rest).filterMap (tplEntry s) =
              clean r.1 :: rest.filterMap (tplEntry s) := by
            rw [List.filterMap_cons, hfr]
          have hlast : lastTplFor (r :: rest) s =
              (lastTplFor rest s).or (some (clean r.1)) := by
            unfold lastTplFor
            rw [hfm, getLast?_cons_or]
          rw [hlast, if_pos h3.symm]
          cases hrest : lastTplFor rest s <;> simp
        · have hfr : tplEntry s r = none := by
            unfold tplEntry
            rw [if_neg (by intro hh; exact h3 hh.2.2)]
          have hlast : lastTplFor (r :: rest) s = lastTplFor rest s := by
            unfold lastTplFor
            rw [List.filterMap_cons, hfr]
          have hne : s ≠ clean r.2 := fun hh => h3 hh.symm
          rw [hlast, if_neg hne]

theorem rev_fold (rows : List (String × String)) :
    ∀ acc t, dlookup t (rows.foldl loadStep acc).rev =
      (lastSrcFor rows t).or (dlookup t acc.rev) := by
  induction rows with
  | nil => intro acc t; simp [lastSrcFor]
  | cons r rest ih =>
    intro acc t
    simp only [List.foldl_cons]
    rw [ih]
    by_cases h1 : clean r.1 = ""
    · have hstep : loadStep acc r = acc := by simp [loadStep, h1]
      have hfr : srcEntry t r = none := by
        unfold srcEntry
        rw [if_neg (by simp [h1])]
      have hlast : lastSrcFor (r :: rest) t = lastSrcFor rest t := by
        unfold lastSrcFor
        rw [List.filterMap_cons, hfr]
      rw [hstep, hlast]
    · by_cases h2 : clean r.2 = ""
      · have hstep : loadStep acc r = acc := by simp [loadStep, h2]
        have hfr : srcEntry t r = none := by
          unfold srcEntry
          rw [if_neg (by simp [h2])]
        have hlast : lastSrcFor (r :: rest) t = lastSrcFor rest t := by
          unfold lastSrcFor
          rw [List.filterMap_cons, hfr]
        rw [hstep, hlast]
      · have hstep : (loadStep acc r).rev =
            dictInsert acc.rev (clean r.1) (clean r.2) := by
          simp [loadStep, h1, h2]
        rw [hstep, dlookup_dictInsert]
        by_cases h3 : clean r.1 = t
        · have hfr : srcEntry t r = some (clean r.2) := by
            unfold srcEntry
            rw [if_pos ⟨h1, h2, h3⟩]
          have hfm : (r :: rest).filterMap (srcEntry t) =
              clean r.2 :: rest.filterMap (srcEntry t) := by
            rw [List.filterMap_cons, hfr]
          have hlast : lastSrcFor (r :: rest) t =
              (lastSrcFor rest t).or (some (clean r.2)) := by
            unfold lastSrcFor
            rw [hfm, getLast?_cons_or]
          rw [hlast, if_pos h3.symm]
          cases hrest : lastSrcFor rest t <;> simp
        · have hfr : srcEntry t r = none := by
            unfold srcEntry
            rw [if_neg (by intro hh; exact h3 hh.2.2)]
          have hlast : lastSrcFor (r :: rest) t = lastSrcFor rest t := by
            unfold lastSrcFor
            rw [List.filterMap_cons, hfr]
          have hne : t ≠ clean r.1 := fun hh => h3 hh.symm
          rw [hlast, if_neg hne]

theorem tplCols_fold (rows : List (String × String)) :
    ∀ acc, (rows.foldl loadStep acc).tplCols =
      (validTpls rows).foldl
        (fun ac t => if t ∈ ac then ac else ac ++ [t]) acc.tplCols := by
  induction rows with
  | nil => intro acc; simp [validTpls]
  | cons r rest ih =>
    intro acc
    simp only [List.foldl_cons]
    rw [ih]
    by_cases h1 : clean r.1 = ""
    · have hstep : loadStep acc r = acc := by simp [loadStep, h1]
      have hfr : tplOfValid r = none := by
        unfold tplOfValid
        rw [if_neg (by simp [h1])]
      have hval : validTpls (r :: rest) = validTpls rest := by
        unfold validTpls
        rw [List.filterMap_cons, hfr]
      rw [hstep, hval]
    · by_cases h2 : clean r.2 = ""
      · have hstep : loadStep acc r = acc := by simp [loadStep, h2]
        have hfr : tplOfValid r = none := by
          unfold tplOfValid
          rw [if_neg (by simp [h2])]
        have hval : validTpls (r :: rest) = validTpls rest := by
          unfold validTpls
          rw [List.filterMap_cons, hfr]
        rw [hstep, hval]
      · have hstep : (loadStep acc r).tplCols =
            (if clean r.1 ∈ acc.tplCols then acc.tplCols
             else acc.tplCols ++ [clean r.1]) := by
          simp [loadStep, h1, h2]
        have hfr : tplOfValid r = some (clean r.1) := by
          unfold tplOfValid
          rw [if_pos ⟨h1, h2⟩]
        have hval : validTpls (r :: rest) = clean r.1 :: validTpls rest := by
          unfold validTpls
          rw [List.filterMap_cons, hfr]
        rw [hstep, hval, List.foldl_cons]

/-- C10: duplicate-key handling of `_load_mapping` is deterministic
last-write-wins for both lookup dicts, while the schema keeps each template
header at its first-seen position.  The forward lookup of any source text `s`
is the cleaned template cell of the LAST valid mapping row whose cleaned
source cell is `s`; symmetrically for the reverse lookup; and the schema is
the first-seen deduplication of the valid rows' cleaned template cells in row
order. -/
theorem c10_mapping_lookup_spec (rows : List (String × String)) (s t : String) :
    dlookup s (loadMappingRows rows).fwd = lastTplFor rows s ∧
    dlookup t (loadMappingRows rows).rev = lastSrcFor rows t ∧
    (loadMappingRows rows).tplCols = firstSeen (validTpls rows) := by
  refine ⟨?_, ?_, ?_⟩
  · rw [loadMappingRows, fwd_fold]
    cases lastTplFor rows s <;> simp [dlookup]
  · rw [loadMappingRows, rev_fold]
    cases lastSrcFor rows t <;> simp [dlookup]
  · rw [loadMappingRows, tplCols_fold]
    rfl

/-! ### Helper lemmas: cleaning and schema membership -/

theorem clean_idem (s : String) : clean (clean s) = clean s := by
  simp [clean, List.filter_filter]

theorem foldl_seen_mem (l : List String) :
    ∀ (acc : List String) (x : String),
      x ∈ l.foldl (fun ac t => if t ∈ ac then ac else ac ++ [t]) acc →
        x ∈ acc ∨ x ∈ l := by
  induction l with
  | nil => intro acc x hx; exact Or.inl hx
  | cons a l ih =>
    intro acc x hx
    rw [List.foldl_cons] at hx
    rcases ih _ x hx with h | h
    · by_cases ha : a ∈ acc
      · rw [if_pos ha] at h; exact Or.inl h
      · rw [if_neg ha] at h
        rcases List.mem_append.mp h with h' | h'
        · exact Or.inl h'
        · simp at h'
          exact Or.inr (h' ▸ List.mem_cons_self a l)
    · exact Or.inr (List.mem_cons_of_mem a h)

theorem validTpls_clean (rows : List (String × String)) :
    ∀ x ∈ validTpls rows, clean x = x := by
  intro x hx
  obtain ⟨p, _, hp⟩ := List.mem_filterMap.mp hx
  unfold tplOfValid at hp
  by_cases hc : clean p.1 ≠ "" ∧ clean p.2 ≠ ""
  · rw [if_pos hc] at hp
    have : x = clean p.1 := (Option.some.inj hp).symm
    rw [this, clean_idem]
  · rw [if_neg hc] at hp
    cases hp

theorem validTpls_mem_of_tplCols (rows : List (String × String)) :
    ∀ x ∈ (loadMappingRows rows).tplCols, x ∈ validTpls rows := by
  intro x hx
  rw [loadMappingRows, tplCols_fold] at hx
  rcases foldl_seen_mem (validTpls rows) _ x hx with h | h
  · cases h
  · exact h

theorem tplCols_clean (rows : List (String × String)) :
    ∀ x ∈ (loadMappingRows rows).tplCols, clean x = x := by
  intro x hx
  exact validTpls_clean rows x (validTpls_mem_of_tplCols rows x hx)

theorem tplCols_in_rev (rows : List (String × String)) :
    ∀ x ∈ (loadMappingRows rows).tplCols,
      x ∈ (loadMappingRows rows).rev.map Prod.fst := by
  intro x hx
  have hv := validTpls_mem_of_tplCols rows x hx
  obtain ⟨p, hpmem, hp⟩ := List.mem_filterMap.mp hv
  have hcond : clean p.1 ≠ "" ∧ clean p.2 ≠ "" ∧ clean p.1 = x := by
    unfold tplOfValid at hp
    by_cases hc : clean p.1 ≠ "" ∧ clean p.2 ≠ ""
    · rw [if_pos hc] at hp
      exact ⟨hc.1, hc.2, Option.some.inj hp⟩
    · rw [if_neg hc] at hp
      cases hp
  have hentry : srcEntry x p = some (clean p.2) := by
    unfold srcEntry
    rw [if_pos hcond]
  have hmem2 : clean p.2 ∈ rows.filterMap (srcEntry x) :=
    List.mem_filterMap.mpr ⟨p, hpmem, hentry⟩
  have hne : rows.filterMap (srcEntry x) ≠ [] :=
    List.ne_nil_of_mem hmem2
  have hsome : (lastSrcFor rows x).isSome = true := by
    unfold lastSrcFor
    rw [List.getLast?_isSome]
    exact hne
  have hlook : dlookup x (loadMappingRows rows).rev = lastSrcFor rows x := by
    rw [loadMappingRows, rev_fold]
    cases lastSrcFor rows x <;> simp [dlookup]
  rw [← dlookup_isSome_iff, hlook]
  exact hsome

/-! ### Helper lemmas: fuzzy rename hit counts -/

theorem buildRename_hits (pool : List String) (d : Dict) (names : List String) :
    (buildRename pool d names).2 =
      names.countP (fun col =>
        (pool.find? (fun k => fuzzyMatch (clean col) k)).isSome) := by
  have aux : ∀ (ns : List String) (acc : Dict × Nat),
      (ns.foldl (fun acc col =>
        match pool.find? (fun k => fuzzyMatch (clean col) k) with
        | some k => (dictInsert acc.1 col ((dlookup k d).getD ""), acc.2 + 1)
        | none => acc) acc).2 =
      acc.2 + ns.countP (fun col =>
        (pool.find? (fun k => fuzzyMatch (clean col) k)).isSome) := by
    intro ns
    induction ns with
    | nil => intro acc; simp
    | cons col ns ih =>
      intro acc
      rw [List.foldl_cons, ih, List.countP_cons]
      cases hf : pool.find? (fun k => fuzzyMatch (clean col) k) with
      | some k => simp [hf]; omega
      | none => simp [hf]
  unfold buildRename
  rw [aux names ([], 0)]
  simp

theorem buildRename_hits_le (pool : List String) (d : Dict)
    (names : List String) :
    (buildRename pool d names).2 ≤ names.length := by
  rw [buildRename_hits]
  exact List.countP_le_length _

/-! ### C6: direction choice of the fuzzy reconciler -/

/-- C6: `_fuzzy_rename` compares the hit counts of the two directions and
returns the strictly better direction's rename and count; on a tie it returns
the forward direction provided the forward count is positive
(`if hit_fwd >= hit_rev and hit_fwd`); when neither direction has at least
one hit it returns the frame unchanged with hit count 0 (identity rename). -/
theorem c6_direction_choice (fwd rev : Dict) (frame : Frame) (bF bR : Dict × Nat)
    (hF : bF = buildRename (fwd.map Prod.fst) fwd (frame.map Prod.fst))
    (hR : bR = buildRename (rev.map Prod.fst) rev (frame.map Prod.fst)) :
    (bR.2 < bF.2 →
      fuzzyRenameF fwd rev frame = (applyRenameF bF.1 frame, bF.2)) ∧
    (bF.2 < bR.2 →
      fuzzyRenameF fwd rev frame = (applyRenameF bR.1 frame, bR.2)) ∧
    (bF.2 = bR.2 → bF.2 ≠ 0 →
      fuzzyRenameF fwd rev frame = (applyRenameF bF.1 frame, bF.2)) ∧
    (bF.2 = 0 → bR.2 = 0 → fuzzyRenameF fwd rev frame = (frame, 0)) := by
  subst hF hR
  unfold fuzzyRenameF
  refine ⟨?_, ?_, ?_, ?_⟩
  · intro h
    rw [if_pos ⟨Nat.le_of_lt h, by omega⟩]
  · intro h
    rw [if_neg (by omega), if_pos (by omega)]
  · intro h1 h2
    rw [if_pos ⟨Nat.le_of_eq h1.symm, h2⟩]
  · intro h1 h2
    rw [if_neg (by omega), if_neg (by omega)]

/-- Witness for C6: a concrete input where the reverse direction's count (1)
strictly exceeds the forward count (0), so the reverse rename is returned. -/
theorem c6_direction_choice_w :
    fuzzyRenameF [("S", "T")] [("T", "S")] [("U", [some "9"]), ("T", [])] =
      ([("U", [some "9"]), ("S", [])], 1) := by
  have h := (c6_direction_choice [("S", "T")] [("T", "S")]
    [("U", [some "9"]), ("T", [])] _ _ rfl rfl).2.1 (by decide)
  exact h.trans (by decide)

/-! ### C2: permutation sheets -/

/-- C2 counterexample: the mapping row ("T", "S") gives schema ["T"],
`fwd = {"S": "T"}`, `rev = {"T": "S"}`.  A sheet whose columns are exactly
the template schema (the permutation ["T"]) is matched via the REVERSE
direction, and the rename maps the matched column to the source-equivalent
name "S" — after renaming the matched column does NOT bear its
template-schema name "T", contradicting the claim's identity statement. -/
theorem c2_reverse_rename_not_template_cex :
    fuzzyRenameF [("S", "T")] [("T", "S")] [("T", [some "1"])] =
      ([("S", [some "1"])], 1) ∧ ("S" : String) ≠ "T" := by
  exact ⟨by decide, by decide⟩

/-- C2 (amended): for every sheet whose column names are an exact permutation
of the template schema of a loaded mapping, the fuzzy reconciler's hit count
equals the schema size N.  (The rename itself maps each matched column to the
chosen direction's dictionary value — the template name when the forward
direction wins, but the source-equivalent name when the reverse direction
wins — so the matched columns do not in general bear their template names.) -/
theorem c2_perm_hit_count (rows : List (String × String)) (frame : Frame)
    (hperm : (frame.map Prod.fst).Perm (loadMappingRows rows).tplCols) :
    (fuzzyRenameF (loadMappingRows rows).fwd (loadMappingRows rows).rev
      frame).2 = (loadMappingRows rows).tplCols.length := by
  have hN : (frame.map Prod.fst).length =
      (loadMappingRows rows).tplCols.length := hperm.length_eq
  have hall : ∀ col ∈ frame.map Prod.fst,
      (((loadMappingRows rows).rev.map Prod.fst).find?
        (fun k => fuzzyMatch (clean col) k)).isSome = true := by
    intro col hcol
    have hmem : col ∈ (loadMappingRows rows).tplCols := hperm.mem_iff.mp hcol
    have hclean : clean col = col := tplCols_clean rows col hmem
    have hrev : col ∈ (loadMappingRows rows).rev.map Prod.fst :=
      tplCols_in_rev rows col hmem
    rw [List.find?_isSome]
    exact ⟨col, hrev, by rw [hclean]; simp [fuzzyMatch]⟩
  have hRhits : (buildRename ((loadMappingRows rows).rev.map Prod.fst)
      (loadMappingRows rows).rev (frame.map Prod.fst)).2 =
      (loadMappingRows rows).tplCols.length := by
    rw [buildRename_hits, List.countP_eq_length.mpr hall, hN]
  have hFle : (buildRename ((loadMappingRows rows).fwd.map Prod.fst)
      (loadMappingRows rows).fwd (frame.map Prod.fst)).2 ≤
      (loadMappingRows rows).tplCols.length := by
    rw [← hN]
    exact buildRename_hits_le _ _ _
  simp only [fuzzyRenameF]
  split_ifs with h1 h2
  · dsimp only
    omega
  · exact hRhits
  · dsimp only
    omega

/-- Witness for C2 at a concrete permutation sheet. -/
theorem c2_perm_hit_count_w :
    (fuzzyRenameF (loadMappingRows [("T", "S")]).fwd
      (loadMappingRows [("T", "S")]).rev [("T", [])]).2 = 1 := by
  have h := c2_perm_hit_count [("T", "S")] [("T", [])] (by decide)
  exact h.trans (by decide)

/-! ### C9: column deduplication -/

theorem dedupAux_sublist (cols : Frame) :
    ∀ seen : List String, List.Sublist (dedupAux seen cols) cols := by
  induction cols with
  | nil => intro seen; simp [dedupAux]
  | cons q rest ih =>
    obtain ⟨n, v⟩ := q
    intro seen
    by_cases h : n ∈ seen
    · simp only [dedupAux, if_pos h]
      exact List.Sublist.cons (n, v) (ih seen)
    · simp only [dedupAux, if_neg h]
      exact List.Sublist.cons₂ (n, v) (ih (n :: seen))

theorem dedupAux_names (cols : Frame) :
    ∀ seen : List String,
      (dedupAux seen cols).map Prod.fst =
        dedupNamesAux seen (cols.map Prod.fst) := by
  induction cols with
  | nil => intro seen; simp [dedupAux, dedupNamesAux]
  | cons q rest ih =>
    obtain ⟨n, v⟩ := q
    intro seen
    by_cases h : n ∈ seen
    · simp only [dedupAux, List.map_cons, dedupNamesAux, if_pos h]
      exact ih seen
    · simp only [dedupAux, List.map_cons, dedupNamesAux, if_neg h]
      rw [ih (n :: seen)]

theorem firstSeen_eq_aux (l : List String) :
    ∀ (acc seen : List String), (∀ x, x ∈ seen ↔ x ∈ acc) →
      l.foldl (fun ac t => if t ∈ ac then ac else ac ++ [t]) acc =
        acc ++ dedupNamesAux seen l := by
  induction l with
  | nil => intro acc seen _; simp [dedupNamesAux]
  | cons a l ih =>
    intro acc seen h
    rw [List.foldl_cons]
    by_cases ha : a ∈ acc
    · rw [if_pos ha]
      simp only [dedupNamesAux, if_pos ((h a).mpr ha)]
      exact ih acc seen h
    · rw [if_neg ha]
      simp only [dedupNamesAux, if_neg (fun hs => ha ((h a).mp hs))]
      rw [ih (acc ++ [a]) (a :: seen) ?_]
      · rw [List.append_assoc]
        rfl
      · intro x
        constructor
        · intro hx
          rcases List.mem_cons.mp hx with rfl | hx
          · exact List.mem_append.mpr (Or.inr (by simp))
          · exact List.mem_append.mpr (Or.inl ((h x).mp hx))
        · intro hx
          rcases List.mem_append.mp hx with hx | hx
          · exact List.mem_cons_of_mem a ((h x).mpr hx)
          · simp at hx
            exact hx ▸ List.mem_cons_self a seen

theorem dedupAux_lookup (cols : Frame) :
    ∀ (seen : List String) (p : String × List Cell),
      p ∈ dedupAux seen cols →
        p.1 ∉ seen ∧ dlookup p.1 cols = some p.2 := by
  induction cols with
  | nil => intro seen p hp; simp [dedupAux] at hp
  | cons q rest ih =>
    obtain ⟨n, v⟩ := q
    intro seen p hp
    by_cases h : n ∈ seen
    · simp only [dedupAux, if_pos h] at hp
      obtain ⟨hns, hlk⟩ := ih seen p hp
      have hpn : p.1 ≠ n := fun hh => hns (hh ▸ h)
      exact ⟨hns, by simp [dlookup, hpn, hlk]⟩
    · simp only [dedupAux, if_neg h] at hp
      rcases List.mem_cons.mp hp with rfl | hp'
      · exact ⟨h, by simp [dlookup]⟩
      · obtain ⟨hns, hlk⟩ := ih (n :: seen) p hp'
        have hpn : p.1 ≠ n := fun hh => hns (hh ▸ List.mem_cons_self n seen)
        refine ⟨fun hs => hns (List.mem_cons_of_mem n hs), ?_⟩
        simp [dlookup, hpn, hlk]

/-- C9: the deduplication step keeps, for each name, exactly the first
occurrence by original column position and drops the rest: the result is a
sublist of the original columns (so the kept columns retain their original
relative order), its name sequence is the first-seen deduplication of the
original names, and every kept column carries the values of the FIRST
occurrence of its name (`dlookup` finds the first binding). -/
theorem c9_dedup_spec (cols : Frame) :
    List.Sublist (dedupCols cols) cols ∧
    (dedupCols cols).map Prod.fst = firstSeen (cols.map Prod.fst) ∧
    ∀ p ∈ dedupCols cols, dlookup p.1 cols = some p.2 := by
  refine ⟨dedupAux_sublist cols [], ?_, ?_⟩
  · rw [dedupCols, dedupAux_names cols [], firstSeen,
      firstSeen_eq_aux (cols.map Prod.fst) [] [] (by simp)]
    rfl
  · intro p hp
    exact (dedupAux_lookup cols [] p hp).2

/-- Witness for C9: a duplicated name "A" keeps its first occurrence's
values. -/
theorem c9_dedup_spec_w :
    List.Sublist
      (dedupCols [("A", [some "1"]), ("B", [some "2"]), ("A", [some "3"])])
      [("A", [some "1"]), ("B", [some "2"]), ("A", [some "3"])] ∧
    dlookup "A" [("A", [some "1"]), ("B", [some "2"]), ("A", [some "3"])] =
      some [some "1"] :=
  ⟨(c9_dedup_spec [("A", [some "1"]), ("B", [some "2"]), ("A", [some "3"])]).1,
    (c9_dedup_spec [("A", [some "1"]), ("B", [some "2"]), ("A", [some "3"])]).2.2
      ("A", [some "1"]) (by decide)⟩

/-! ### C7: schema alignment of accepted sheets -/

theorem pad_mem_preserved (l : List String) (nrows : Nat) :
    ∀ (acc : Frame) (c : String), c ∈ acc.map Prod.fst →
      c ∈ (l.foldl (fun acc c =>
        if c ∈ acc.map Prod.fst then acc
        else acc ++ [(c, List.replicate nrows (none : Cell))]) acc).map
          Prod.fst := by
  induction l with
  | nil => intro acc c h; exact h
  | cons a l ih =>
    intro acc c h
    rw [List.foldl_cons]
    by_cases ha : a ∈ acc.map Prod.fst
    · rw [if_pos ha]; exact ih acc c h
    · rw [if_neg ha]
      exact ih _ c (by rw [List.map_append]; exact List.mem_append_left _ h)

theorem pad_mem_of_mem (l : List String) (nrows : Nat) :
    ∀ (acc : Frame) (c : String), c ∈ l →
      c ∈ (l.foldl (fun acc c =>
        if c ∈ acc.map Prod.fst then acc
        else acc ++ [(c, List.replicate nrows (none : Cell))]) acc).map
          Prod.fst := by
  induction l with
  | nil => intro acc c h; cases h
  | cons a l ih =>
    intro acc c h
    rw [List.foldl_cons]
    rcases List.mem_cons.mp h with rfl | h'
    · by_cases ha : c ∈ acc.map Prod.fst
      · rw [if_pos ha]
        exact pad_mem_preserved l nrows acc c ha
      · rw [if_neg ha]
        exact pad_mem_preserved l nrows _ c (by simp)
    · by_cases ha : a ∈ acc.map Prod.fst
      · rw [if_pos ha]; exact ih acc c h'
      · rw [if_neg ha]; exact ih _ c h'

theorem pad_lookup_preserved (l : List String) (nrows : Nat) :
    ∀ (acc : Frame) (c : String) (v : List Cell), dlookup c acc = some v →
      dlookup c (l.foldl (fun acc c =>
        if c ∈ acc.map Prod.fst then acc
        else acc ++ [(c, List.replicate nrows (none : Cell))]) acc) =
        some v := by
  induction l with
  | nil => intro acc c v h; exact h
  | cons a l ih =>
    intro acc c v h
    rw [List.foldl_cons]
    by_cases ha : a ∈ acc.map Prod.fst
    · rw [if_pos ha]; exact ih acc c v h
    · rw [if_neg ha]
      refine ih _ c v ?_
      rw [dlookup_append, h]

theorem pad_lookup_missing (l : List String) (nrows : Nat) :
    ∀ (acc : Frame) (c : String), c ∈ l → dlookup c acc = none →
      dlookup c (l.foldl (fun acc c =>
        if c ∈ acc.map Prod.fst then acc
        else acc ++ [(c, List.replicate nrows (none : Cell))]) acc) =
        some (List.replicate nrows none) := by
  induction l with
  | nil => intro acc c h; cases h
  | cons a l ih =>
    intro acc c hc hnone
    rw [List.foldl_cons]
    by_cases hca : c = a
    · subst hca
      have hnm : c ∉ acc.map Prod.fst := (dlookup_eq_none_iff c acc).mp hnone
      rw [if_neg hnm]
      refine pad_lookup_preserved l nrows _ c _ ?_
      rw [dlookup_append, hnone]
      simp [dlookup]
    · have hc' : c ∈ l := by
        rcases List.mem_cons.mp hc with h | h
        · exact absurd h hca
        · exact h
      by_cases ha : a ∈ acc.map Prod.fst
      · rw [if_pos ha]; exact ih acc c hc' hnone
      · rw [if_neg ha]
        refine ih _ c hc' ?_
        rw [dlookup_append, hnone]
        simp [dlookup, hca]

theorem select_names (t : List String) :
    ∀ f : Frame, (∀ c ∈ t, (dlookup c f).isSome = true) →
      (selectCols t f).map Prod.fst = t := by
  induction t with
  | nil => intro f _; simp [selectCols]
  | cons a t ih =>
    intro f h
    have ha := h a (List.mem_cons_self a t)
    obtain ⟨va, hva⟩ := Option.isSome_iff_exists.mp ha
    simp only [selectCols, List.filterMap_cons, hva, Option.map_some']
    rw [List.map_cons]
    have := ih f (fun c hc => h c (List.mem_cons_of_mem a hc))
    rw [show List.filterMap (fun c => (dlookup c f).map fun v => (c, v)) t =
      selectCols t f from rfl, this]

theorem select_lookup (t : List String) :
    ∀ (f : Frame) (c : String), c ∈ t →
      (∀ x ∈ t, (dlookup x f).isSome = true) →
      dlookup c (selectCols t f) = dlookup c f := by
  induction t with
  | nil => intro f c hc; cases hc
  | cons a t ih =>
    intro f c hc h
    have ha := h a (List.mem_cons_self a t)
    obtain ⟨va, hva⟩ := Option.isSome_iff_exists.mp ha
    simp only [selectCols, List.filterMap_cons, hva, Option.map_some']
    by_cases hca : c = a
    · subst hca
      simp [dlookup, hva]
    · have hc' : c ∈ t := by
        rcases List.mem_cons.mp hc with h' | h'
        · exact absurd h' hca
        · exact h'
      rw [show (dlookup c ((a, va) ::
          List.filterMap (fun c => (dlookup c f).map fun v => (c, v)) t)) =
          dlookup c (selectCols t f) by simp [dlookup, hca]; rfl]
      exact ih f c hc' (fun x hx => h x (List.mem_cons_of_mem a hx))

theorem alignTo_names (t : List String) (n : Nat) (f : Frame) :
    (alignTo t n f).map Prod.fst = t := by
  apply select_names
  intro c hc
  rw [dlookup_isSome_iff]
  exact pad_mem_of_mem t n f c hc

theorem alignTo_lookup_missing (t : List String) (n : Nat) (f : Frame)
    (c : String) (hc : c ∈ t) (hmiss : c ∉ f.map Prod.fst) :
    dlookup c (alignTo t n f) = some (List.replicate n none) := by
  have h0 : dlookup c f = none := (dlookup_eq_none_iff c f).mpr hmiss
  have hall : ∀ x ∈ t, (dlookup x (padMissing n t f)).isSome = true := by
    intro x hx
    rw [dlookup_isSome_iff]
    exact pad_mem_of_mem t n f x hx
  rw [alignTo, select_lookup t (padMissing n t f) c hc hall]
  exact pad_lookup_missing t n f c hc h0

/-- C7: every accepted sheet contributes a frame whose columns are exactly
the N template-schema columns in declared order, and every template column
absent from the (renamed, deduplicated) sheet is a null-filled column whose
length is the sheet's data-row count (rows below the located header) —
regardless of the sheet's original column count or order. -/
theorem c7_aligned_shape (probeRows : Nat) (tplCols : List String)
    (fwd rev : Dict) (g : Grid) (f : Frame)
    (h : processSheet probeRows tplCols fwd rev g = some f) :
    f.map Prod.fst = tplCols ∧
    ∀ c ∈ tplCols,
      c ∉ (dedupCols (sheetRenamed fwd rev g
          (sheetHeaderIdx probeRows fwd rev g).toNat).1).map Prod.fst →
        dlookup c f = some (List.replicate
          (g.length - ((sheetHeaderIdx probeRows fwd rev g).toNat + 1))
          none) := by
  simp only [processSheet] at h
  by_cases h1 : sheetHeaderIdx probeRows fwd rev g = -1
  · rw [if_pos h1] at h; cases h
  · rw [if_neg h1] at h
    by_cases h2 : (sheetRenamed fwd rev g
        (sheetHeaderIdx probeRows fwd rev g).toNat).2 = 0
    · rw [if_pos h2] at h; cases h
    · rw [if_neg h2] at h
      have hf := (Option.some.inj h).symm
      subst hf
      exact ⟨alignTo_names _ _ _,
        fun c hc hmiss => alignTo_lookup_missing _ _ _ c hc hmiss⟩

/-- Witness for C7: an accepted one-column sheet against a two-column schema
yields the two schema columns in order, the absent one null-filled. -/
theorem c7_aligned_shape_w :
    ([("T", [some "1"]), ("U", [(none : Cell)])] : Frame).map Prod.fst =
      ["T", "U"] ∧
    dlookup "U" ([("T", [some "1"]), ("U", [(none : Cell)])] : Frame) =
      some [none] := by
  have h := c7_aligned_shape 200 ["T", "U"] [("S", "T"), ("V", "U")]
    [("T", "S"), ("U", "V")] [[some "S"], [some "1"]]
    [("T", [some "1"]), ("U", [none])] (by decide)
  exact ⟨h.1, h.2 "U" (by decide) (by decide)⟩

/-! ### Merge-level claims: concrete filesystems -/

/-! ### Reduction lemmas for the orchestration -/

theorem mergeRun_load_error (fs : String → Workbook) (tpl mapP : String)
    (srcs : List String) (pR : Nat) (e : MergeError)
    (h : loadMapping (fs mapP) = .error e) :
    mergeRun fs tpl mapP srcs pR = .error e := by
  unfold mergeRun
  rw [h]

theorem mergeRun_ok_step (fs : String → Workbook) (tpl mapP : String)
    (srcs : List String) (pR : Nat) (acc : MappingAcc)
    (h : loadMapping (fs mapP) = .ok acc) :
    mergeRun fs tpl mapP srcs pR =
      match processAll fs pR acc.tplCols acc.fwd acc.rev srcs with
      | .error e => .error e
      | .ok frames =>
        if frames.isEmpty then .error .noMatch
        else .ok (tpl ++ "_filled.xlsx", frames) := by
  unfold mergeRun
  rw [h]

theorem processAll_cons (fs : String → Workbook) (pR : Nat)
    (tc : List String) (fw rv : Dict) (p : String) (rest : List String) :
    processAll fs pR tc fw rv (p :: rest) =
      match processWorkbook pR tc fw rv (fs p) with
      | .error e => .error e
      | .ok fr =>
        match processAll fs pR tc fw rv rest with
        | .error e => .error e
        | .ok more => .ok (fr ++ more) := rfl

/-! ### C8: output gating -/

/-- C8: the output artifact is produced exactly when every source workbook
was processed without a fatal error and at least one frame was accepted; if
zero frames are accepted across all sources, `merge` fails with the no-match
error and nothing is written.  (In the model the `.ok` payload IS the single
write `result.to_excel(out)` performs; every other path returns an error and
writes nothing, so no partial output exists.) -/
theorem c8_output_gate (fs : String → Workbook) (tpl mapP : String)
    (srcs : List String) (pR : Nat) :
    (∀ acc : MappingAcc, loadMapping (fs mapP) = .ok acc →
      processAll fs pR acc.tplCols acc.fwd acc.rev srcs = .ok [] →
      mergeRun fs tpl mapP srcs pR = .error .noMatch) ∧
    (∀ out, mergeRun fs tpl mapP srcs pR = .ok out →
      ∃ acc : MappingAcc, loadMapping (fs mapP) = .ok acc ∧
        processAll fs pR acc.tplCols acc.fwd acc.rev srcs = .ok out.2 ∧
        out.2 ≠ [] ∧ out.1 = tpl ++ "_filled.xlsx") := by
  constructor
  · intro acc hload hproc
    rw [mergeRun_ok_step fs tpl mapP srcs pR acc hload, hproc]
    rfl
  · intro out hrun
    cases hload : loadMapping (fs mapP) with
    | error e =>
      rw [mergeRun_load_error fs tpl mapP srcs pR e hload] at hrun
      exact Except.noConfusion hrun
    | ok acc =>
      rw [mergeRun_ok_step fs tpl mapP srcs pR acc hload] at hrun
      cases hproc : processAll fs pR acc.tplCols acc.fwd acc.rev srcs with
      | error e =>
        rw [hproc] at hrun
        exact Except.noConfusion hrun
      | ok frames =>
        rw [hproc] at hrun
        have hrun2 : (if frames.isEmpty = true then
            (Except.error MergeError.noMatch :
              Except MergeError (String × List Frame))
          else Except.ok (tpl ++ "_filled.xlsx", frames)) = .ok out := hrun
        by_cases hemp : frames.isEmpty = true
        · rw [if_pos hemp] at hrun2
          exact Except.noConfusion hrun2
        · rw [if_neg hemp] at hrun2
          have hout : out = (tpl ++ "_filled.xlsx", frames) :=
            (Except.ok.inj hrun2).symm
          subst hout
          refine ⟨acc, rfl, hproc, ?_, rfl⟩
          simpa [List.isEmpty_iff] using hemp

/-- Witness for C8: a run whose only source sheet has no locatable header
accepts zero frames and fails with the no-match error. -/
theorem c8_output_gate_w :
    mergeRun fsNoMatch "t" "m" ["s1"] 5 = .error .noMatch :=
  (c8_output_gate fsNoMatch "t" "m" ["s1"] 5).1
    ⟨["T"], [("S", "T")], [("T", "S")]⟩ rfl rfl

/-! ### C1: the template workbook is never probed -/

/-- C1 counterexample: the template workbook at path "t" has no locatable
header for the candidate keys "S" and "T" (second conjunct), yet `merge`
does not fail with a `ConfigError` — it runs to completion, processes the
source workbook and writes the output (first conjunct).  The claim that the
template is pushed through the probe→reconcile pipeline and that an
unlocatable template header aborts the run before any source is processed is
false on the code: `merge` never reads the template workbook at all. -/
theorem c1_template_not_probed_cex :
    mergeRun fsTemplateIgnored "t" "m" ["src"] 200 =
      .ok ("t_filled.xlsx", [[("T", [some "1"])]]) ∧
    probeSheet [[some "X"], [some "Y"]] ["S", "T"] 200 = -1 :=
  ⟨rfl, rfl⟩

/-- C1 (amended): after the mapping table is loaded, `merge` runs only the
source workbooks through the probe→reconcile pipeline; the template workbook
is never read, so its (possibly unlocatable) header cannot raise any error —
the merge result depends only on the mapping file and the source files, the
template path serving only to name the output. -/
theorem c1_merge_ignores_template (fs gs : String → Workbook)
    (tpl mapP : String) (srcs : List String) (pR : Nat)
    (hmap : fs mapP = gs mapP) (hsrc : ∀ s ∈ srcs, fs s = gs s) :
    mergeRun fs tpl mapP srcs pR = mergeRun gs tpl mapP srcs pR := by
  have hproc : ∀ (tc : List String) (fw rv : Dict) (l : List String),
      (∀ s ∈ l, fs s = gs s) →
      processAll fs pR tc fw rv l = processAll gs pR tc fw rv l := by
    intro tc fw rv l
    induction l with
    | nil => intro _; rfl
    | cons p rest ih =>
      intro h
      rw [processAll_cons, processAll_cons,
        h p (List.mem_cons_self p rest),
        ih (fun s hs => h s (List.mem_cons_of_mem p hs))]
  cases hl : loadMapping (gs mapP) with
  | error e =>
    rw [mergeRun_load_error fs tpl mapP srcs pR e (by rw [hmap]; exact hl),
      mergeRun_load_error gs tpl mapP srcs pR e hl]
  | ok acc =>
    rw [mergeRun_ok_step fs tpl mapP srcs pR acc (by rw [hmap]; exact hl),
      mergeRun_ok_step gs tpl mapP srcs pR acc hl,
      hproc acc.tplCols acc.fwd acc.rev srcs hsrc]

/-- Witness for C1: replacing the template workbook's entire contents (all
paths other than the mapping and the sources) leaves the merge result
unchanged. -/
theorem c1_merge_ignores_template_w :
    mergeRun fsTemplateIgnored "t" "m" ["src"] 200 =
      mergeRun fsTemplateBlank "t" "m" ["src"] 200 :=
  c1_merge_ignores_template fsTemplateIgnored fsTemplateBlank "t" "m"
    ["src"] 200 rfl
    (by
      intro s hs
      rw [List.mem_singleton] at hs
      subst hs
      rfl)

/-! ### C3: a source format error aborts the run -/

/-- C3 counterexample: with the unsupported workbook "bad" followed by the
processable workbook "good", the run aborts with the format error (first
conjunct) — "good" is never reached; run alone, "good" produces output
(second conjunct).  So a `FormatError` on a source file mid-run is NOT
surfaced as a skip: there is no per-file exception handling in `merge` and
the whole run aborts. -/
theorem c3_format_error_aborts_cex :
    mergeRun fsBadSource "t" "m" ["bad", "good"] 200 =
      .error (.formatError "unsupported file type") ∧
    mergeRun fsBadSource "t" "m" ["good"] 200 =
      .ok ("t_filled.xlsx", [[("T", [some "1"])]]) :=
  ⟨rfl, rfl⟩

/-- C3 (amended): a `FormatError` raised while reading a source workbook
mid-run propagates out of `merge` and aborts the whole run — the remaining
source files are not processed and no output is written.  Only the per-sheet
conditions (header not found, zero hits) are skips; a malformed source FILE
is fatal for the run. -/
theorem c3_format_error_propagates (fs : String → Workbook)
    (tpl mapP : String) (pR : Nat) (pre post : List String) (bad msg : String)
    (acc : MappingAcc) (frames0 : List Frame)
    (hload : loadMapping (fs mapP) = .ok acc)
    (hpre : processAll fs pR acc.tplCols acc.fwd acc.rev pre = .ok frames0)
    (hbad : fs bad = .badFormat msg) :
    mergeRun fs tpl mapP (pre ++ bad :: post) pR =
      .error (.formatError msg) := by
  have happ : processAll fs pR acc.tplCols acc.fwd acc.rev
      (pre ++ bad :: post) = .error (.formatError msg) := by
    induction pre generalizing frames0 with
    | nil =>
      rw [List.nil_append, processAll_cons, hbad]
      rfl
    | cons p rest ih =>
      rw [processAll_cons] at hpre
      rw [List.cons_append, processAll_cons]
      cases hw : processWorkbook pR acc.tplCols acc.fwd acc.rev (fs p) with
      | error e =>
        rw [hw] at hpre
        exact Except.noConfusion hpre
      | ok f1 =>
        rw [hw] at hpre
        cases hrest : processAll fs pR acc.tplCols acc.fwd acc.rev rest with
        | error e =>
          rw [hrest] at hpre
          exact Except.noConfusion hpre
        | ok f2 =>
          rw [ih f2 hrest]
  rw [mergeRun_ok_step fs tpl mapP (pre ++ bad :: post) pR acc hload, happ]

/-- Witness for C3: the processable source "good" is processed first, then
the unsupported "bad" aborts the run with the format error. -/
theorem c3_format_error_propagates_w :
    mergeRun fsBadSource "t" "m" ["good", "bad"] 200 =
      .error (.formatError "unsupported file type") :=
  c3_format_error_propagates fsBadSource "t" "m" 200 ["good"] [] "bad"
    "unsupported file type" ⟨["T"], [("S", "T")], [("T", "S")]⟩
    [[("T", [some "1"])]] rfl rfl rfl

/-! ### C4: row 0 of the mapping file is consumed as the header -/

/-- C4 counterexample: for the mapping grid with rows
("T1","S1") and ("T2","S2"), row 0's pair contributes NOTHING — the loaded
mapping has schema ["T2"] only, the forward lookup has no entry for "S1" and
"T1" is not a schema column.  Row 0 is consumed as the pandas header
(`header=0`), not treated as a plain mapping data row, contradicting the
claim. -/
theorem c4_row0_consumed_cex :
    loadMappingGrid [[some "T1", some "S1"], [some "T2", some "S2"]] =
      .ok ⟨["T2"], [("S2", "T2")], [("T2", "S2")]⟩ ∧
    dlookup "S1" [("S2", "T2")] = none ∧
    "T1" ∉ (["T2"] : List String) :=
  ⟨rfl, rfl, by decide⟩

/-- C4 (amended): loading the mapping file consumes row 0 of its first sheet
as the column-label row: row 0 contributes no lookup entry and no schema
column, and — beyond fixing the grid's column count — its content does not
affect the result at all; only rows 1 onward contribute, with the first two
columns selected by position. -/
theorem c4_mapping_ignores_row0 (r0 r0' : List Cell) (rest : Grid)
    (hn : ncolsOf (r0 :: rest) = ncolsOf (r0' :: rest)) :
    loadMappingGrid (r0 :: rest) = loadMappingGrid (r0' :: rest) := by
  unfold loadMappingGrid
  rw [hn]
  rfl

/-- Witness for C4: replacing row 0's texts wholesale leaves the loaded
mapping unchanged. -/
theorem c4_mapping_ignores_row0_w :
    loadMappingGrid [[some "HdrA", some "HdrB"], [some "T2", some "S2"]] =
      loadMappingGrid [[some "X", some "Y"], [some "T2", some "S2"]] :=
  c4_mapping_ignores_row0 [some "HdrA", some "HdrB"] [some "X", some "Y"]
    [[some "T2", some "S2"]] rfl
